import Mathlib

/-!
Verification development for the ASTRA toolbox 2D sparse-matrix projector
(`include/astra/SparseMatrixProjector2D.h`,
class `CSparseMatrixProjector2D`).

The header in the repository excerpt is declaration-only: the bodies of
`_check`, `initialize`, `clear`, `getProjectionWeightsCount`,
`computeSingleRayWeights`, `projectPoint`, `project`,
`projectSingleProjection` and `projectSingleRay` live in a translation
unit that is not part of the excerpt.  Those operations are therefore
modelled from the specification (each such definition carries a
`Modelled from the spec:` doc comment).  The two inline bodies that are
present in the header — the empty bodies of `projectSingleVoxel` /
`projectAllVoxels` and the body of `getType` — are translated directly
from the source.

Matrix weights are `float32` in the source; they are modelled as `ℚ`
(only storage, lookup and comparison of weights matter to the
properties below, no floating-point arithmetic is performed).
-/

namespace Astra

/-- Weight values (float32 in the source, modelled as ℚ). -/
abbrev Weight := ℚ

/-- Pixel index / weight pair, the unit of output of single-ray queries
(struct `SPixelWeight` of the source interface). -/
structure SPixelWeight where
  m_iIndex : Nat
  m_fWeight : Weight
deriving DecidableEq, Repr

/-- Detector reference returned by `projectPoint`
(struct `SDetector2D` of the source interface): projection index,
detector index, weight. -/
structure SDetector2D where
  m_iAngleIndex : Nat
  m_iDetectorIndex : Nat
  m_fWeight : Weight
deriving DecidableEq, Repr

/-- Modelled from the spec: the SparseWeightMatrix consumed by the
projector (`SparseMatrix.h` is not part of the excerpt).  CSR-like
storage: `rows.get r` lists the entries `(column, weight)` of row `r`,
sorted by ascending column. -/
structure SparseMatrix where
  rowCount : Nat
  columnCount : Nat
  rows : List (List (Nat × Weight))
deriving DecidableEq, Repr

/-- Entry list of one row (out-of-range rows read as empty). -/
def SparseMatrix.row (m : SparseMatrix) (r : Nat) : List (Nat × Weight) :=
  m.rows.getD r []

/-- Well-formedness of one stored row with respect to a column count:
strictly ascending column indices, all columns in range, and only
nonzero weights stored. -/
def rowWF (cc : Nat) (row : List (Nat × Weight)) : Prop :=
  row.Chain' (fun a b => a.1 < b.1) ∧ ∀ e ∈ row, e.1 < cc ∧ e.2 ≠ 0

/-- Modelled from the spec: validity invariant of a SparseWeightMatrix
(row list length matches the declared row count, every row is
well-formed). -/
def SparseMatrix.WF (m : SparseMatrix) : Prop :=
  m.rows.length = m.rowCount ∧ ∀ row ∈ m.rows, rowWF m.columnCount row

/-- Weight stored at column `c` of an entry list (`0` when absent). -/
def findCol (row : List (Nat × Weight)) (c : Nat) : Weight :=
  match row.find? (fun e => e.1 == c) with
  | some e => e.2
  | none => 0

/-- Mathematical value of matrix cell `(r, c)`. -/
def SparseMatrix.matValue (m : SparseMatrix) (r c : Nat) : Weight :=
  findCol (m.row r) c

/-- Number of stored entries of row `r` (the per-row nonzero-count
query of the matrix interface, `getRowSize`-like). -/
def SparseMatrix.rowSize (m : SparseMatrix) (r : Nat) : Nat :=
  (m.row r).length

/-- True number of nonzero cells of row `r`, defined independently of
the storage via `matValue`. -/
def SparseMatrix.trueNnz (m : SparseMatrix) (r : Nat) : Nat :=
  ((List.range m.columnCount).filter (fun c => decide (m.matValue r c ≠ 0))).length

/-- Modelled from the spec: column-ordered enumeration (`columnWeights`)
worker.  Walks the rows from index `i` upward and emits `(rowIndex,
weight)` for every row holding an entry at column `c`; the result is
ascending in row index by construction. -/
def colWeightsAux (c : Nat) : Nat → List (List (Nat × Weight)) → List (Nat × Weight)
  | _, [] => []
  | i, row :: rest =>
    match row.find? (fun e => e.1 == c) with
    | some e => (i, e.2) :: colWeightsAux c (i + 1) rest
    | none => colWeightsAux c (i + 1) rest

/-- Modelled from the spec: `columnWeights(columnIndex)` — finite,
ascending-row-ordered sequence of `(rowIndex, weight)` for one column. -/
def SparseMatrix.columnWeights (m : SparseMatrix) (c : Nat) : List (Nat × Weight) :=
  colWeightsAux c 0 m.rows

/-- Projection geometry consumed by the projector
(`CSparseMatrixProjectionGeometry2D`): projection count and the fixed
per-projection detector count. -/
structure SparseMatrixProjectionGeometry2D where
  projectionCount : Nat
  detectorCount : Nat
deriving DecidableEq, Repr

/-- Total ray (matrix row) count of a projection geometry. -/
def totalDetectors (pg : SparseMatrixProjectionGeometry2D) : Nat :=
  pg.projectionCount * pg.detectorCount

/-- Linear row index of ray `(projectionIndex, detectorIndex)`:
projection-major, detector-minor. -/
def rayIndex (pg : SparseMatrixProjectionGeometry2D) (p d : Nat) : Nat :=
  p * pg.detectorCount + d

/-- Volume geometry (`CVolumeGeometry2D`): pixel grid width (columns)
and height (rows). -/
structure VolumeGeometry2D where
  gridColCount : Nat
  gridRowCount : Nat
deriving DecidableEq, Repr

/-- Total pixel (matrix column) count of a volume geometry. -/
def totalPixels (vg : VolumeGeometry2D) : Nat :=
  vg.gridColCount * vg.gridRowCount

/-- Row-major linear pixel index of grid cell `(row, col)`. -/
def pixelIndex (vg : VolumeGeometry2D) (row col : Nat) : Nat :=
  row * vg.gridColCount + col

/-- Error taxonomy of the spec (§7). -/
inductive PError
  | DimensionMismatch
  | OutOfRangeIndex
  | BufferTooSmall
  | NotSupported
deriving DecidableEq, Repr

/-- Observable state of a `CSparseMatrixProjector2D`: the initialized
flag and the hard-copied geometry and matrix. -/
structure CSparseMatrixProjector2D where
  m_bIsInitialized : Bool
  m_pProjectionGeometry : SparseMatrixProjectionGeometry2D
  m_pVolumeGeometry : VolumeGeometry2D
  m_pMatrix : SparseMatrix
deriving DecidableEq, Repr

/-- Modelled from the spec: `_check` — matrix dimensions must match the
geometries (columns = width × height, rows = total detectors). -/
def checkDims (pg : SparseMatrixProjectionGeometry2D) (vg : VolumeGeometry2D)
    (m : SparseMatrix) : Bool :=
  m.columnCount == totalPixels vg && m.rowCount == totalDetectors pg

/-- Modelled from the spec: `initialize` — on success hard-copies the
inputs and transitions to Initialized; on a dimension mismatch fails
with `DimensionMismatch` and leaves the prior state untouched. -/
def initializeProj (st : CSparseMatrixProjector2D)
    (pg : SparseMatrixProjectionGeometry2D) (vg : VolumeGeometry2D)
    (m : SparseMatrix) : CSparseMatrixProjector2D × Option PError :=
  if checkDims pg vg m then
    ({ m_bIsInitialized := true, m_pProjectionGeometry := pg,
       m_pVolumeGeometry := vg, m_pMatrix := m }, none)
  else
    (st, some PError.DimensionMismatch)

/-- Modelled from the spec: `clear` — releases the owned copies and
returns to the Uninitialized state. -/
def clear (_st : CSparseMatrixProjector2D) : CSparseMatrixProjector2D :=
  { m_bIsInitialized := false,
    m_pProjectionGeometry := ⟨0, 0⟩,
    m_pVolumeGeometry := ⟨0, 0⟩,
    m_pMatrix := ⟨0, 0, []⟩ }

/-- Modelled from the spec: `getProjectionWeightsCount(projectionIndex)`
— sum of stored nonzero counts over all rows of that projection;
requires the Initialized state and a valid index, else
`OutOfRangeIndex`. -/
def getProjectionWeightsCount (st : CSparseMatrixProjector2D) (p : Nat) :
    Except PError Nat :=
  if st.m_bIsInitialized ∧ p < st.m_pProjectionGeometry.projectionCount then
    Except.ok (((List.range st.m_pProjectionGeometry.detectorCount).map
      (fun d => st.m_pMatrix.rowSize (rayIndex st.m_pProjectionGeometry p d))).sum)
  else
    Except.error PError.OutOfRangeIndex

/-- Modelled from the spec: `computeSingleRayWeights` — maps the indices
to a row, rejects an undersized destination buffer with
`BufferTooSmall`, otherwise returns the row's `(pixelIndex, weight)`
entries in ascending pixel order together with the stored count. -/
def computeSingleRayWeights (st : CSparseMatrixProjector2D)
    (p d maxPixelCount : Nat) : Except PError (List SPixelWeight × Nat) :=
  if st.m_bIsInitialized ∧ p < st.m_pProjectionGeometry.projectionCount ∧
      d < st.m_pProjectionGeometry.detectorCount then
    if maxPixelCount < (st.m_pMatrix.row (rayIndex st.m_pProjectionGeometry p d)).length then
      Except.error PError.BufferTooSmall
    else
      Except.ok ((st.m_pMatrix.row (rayIndex st.m_pProjectionGeometry p d)).map (fun e => ⟨e.1, e.2⟩),
                 (st.m_pMatrix.row (rayIndex st.m_pProjectionGeometry p d)).length)
  else
    Except.error PError.OutOfRangeIndex

/-- Modelled from the spec: `projectPoint(row, col)` — maps the pixel to
its column index, enumerates `columnWeights`, and inverse-maps each row
index back to `(projectionIndex, detectorIndex)`. -/
def projectPoint (st : CSparseMatrixProjector2D) (row col : Nat) :
    Except PError (List SDetector2D) :=
  if st.m_bIsInitialized ∧ row < st.m_pVolumeGeometry.gridRowCount ∧
      col < st.m_pVolumeGeometry.gridColCount then
    Except.ok ((st.m_pMatrix.columnWeights (pixelIndex st.m_pVolumeGeometry row col)).map
      (fun rw => ⟨rw.1 / st.m_pProjectionGeometry.detectorCount,
                  rw.1 % st.m_pProjectionGeometry.detectorCount, rw.2⟩))
  else
    Except.error PError.OutOfRangeIndex

/-- Traversal policy (the compile-time `Policy` template parameter):
`prior`, `addWeight`, `posterior` as state transformers over a
caller-owned state `σ`. -/
structure Policy (σ : Type) where
  prior : σ → Nat → σ × Bool
  addWeight : σ → Nat → Nat → Weight → σ
  posterior : σ → Nat → σ

/-- Observable policy callback invocations, in call order. -/
inductive PolicyEvent
  | priorCall (ray : Nat)
  | addWeightCall (ray : Nat) (pixel : Nat) (w : Weight)
  | posteriorCall (ray : Nat)
deriving DecidableEq, Repr

/-- Modelled from the spec: the inner weight loop of one ray — one
`addWeight` call per stored entry, in storage (ascending pixel) order. -/
def addWeightsLoop {σ : Type} (pol : Policy σ) (ray : Nat) :
    σ → List (Nat × Weight) → σ × List PolicyEvent
  | s, [] => (s, [])
  | s, e :: rest =>
    let s1 := pol.addWeight s ray e.1 e.2
    let res := addWeightsLoop pol ray s1 rest
    (res.1, PolicyEvent.addWeightCall ray e.1 e.2 :: res.2)

/-- Modelled from the spec: the per-ray state machine shared by all
traversal entry points — `prior`, then (if accepted) the weight loop
followed by exactly one `posterior`. -/
def stepRay {σ : Type} (pol : Policy σ) (m : SparseMatrix) (s : σ) (ray : Nat) :
    σ × List PolicyEvent :=
  let pr := pol.prior s ray
  if pr.2 then
    let res := addWeightsLoop pol ray pr.1 (m.row ray)
    (pol.posterior res.1 ray,
     PolicyEvent.priorCall ray :: (res.2 ++ [PolicyEvent.posteriorCall ray]))
  else
    (pr.1, [PolicyEvent.priorCall ray])

/-- Sequential traversal of a list of ray indices, threading the policy
state and concatenating the event traces. -/
def runRays {σ : Type} (pol : Policy σ) (m : SparseMatrix) :
    σ → List Nat → σ × List PolicyEvent
  | s, [] => (s, [])
  | s, ray :: rest =>
    let a := stepRay pol m s ray
    let b := runRays pol m a.1 rest
    (b.1, a.2 ++ b.2)

/-- Modelled from the spec: `project(policy)` — every ray of every
projection in projection-major, detector-minor row order, i.e. rows
`0, 1, …, totalDetectors − 1`. -/
def project {σ : Type} (pol : Policy σ) (st : CSparseMatrixProjector2D) (s : σ) :
    σ × List PolicyEvent :=
  runRays pol st.m_pMatrix s (List.range (totalDetectors st.m_pProjectionGeometry))

/-- Modelled from the spec: `projectSingleProjection(p, policy)` — the
rows of projection `p`, in detector order. -/
def projectSingleProjection {σ : Type} (pol : Policy σ)
    (st : CSparseMatrixProjector2D) (p : Nat) (s : σ) : σ × List PolicyEvent :=
  runRays pol st.m_pMatrix s
    ((List.range st.m_pProjectionGeometry.detectorCount).map
      (fun d => rayIndex st.m_pProjectionGeometry p d))

/-- Modelled from the spec: `projectSingleRay(p, d, policy)` — the
per-ray contract applied to exactly one row. -/
def projectSingleRay {σ : Type} (pol : Policy σ)
    (st : CSparseMatrixProjector2D) (p d : Nat) (s : σ) : σ × List PolicyEvent :=
  runRays pol st.m_pMatrix s [rayIndex st.m_pProjectionGeometry p d]

/-- Sequential composition of per-index traversal runs: applies `f` to
each index in turn, threading the state and concatenating the traces.
Used to express "the concatenation over all p of
projectSingleProjection(p, policy)". -/
def chainRuns {σ : Type} (f : Nat → σ → σ × List PolicyEvent) :
    σ → List Nat → σ × List PolicyEvent
  | s, [] => (s, [])
  | s, i :: rest =>
    let a := f i s
    let b := chainRuns f a.1 rest
    (b.1, a.2 ++ b.2)

/-- Translated from the source header (inline body `{}`):
`projectSingleVoxel` returns normally, touches nothing and invokes no
policy callback.  Return type `Except PError _` models the C++ normal
return / error channel; the empty body always returns normally. -/
def projectSingleVoxel {σ : Type} (_pol : Policy σ)
    (_st : CSparseMatrixProjector2D) (_row _col : Nat) (s : σ) :
    Except PError (σ × List PolicyEvent) :=
  Except.ok (s, [])

/-- Translated from the source header (inline body `{}`):
`projectAllVoxels` returns normally, touches nothing and invokes no
policy callback. -/
def projectAllVoxels {σ : Type} (_pol : Policy σ)
    (_st : CSparseMatrixProjector2D) (s : σ) :
    Except PError (σ × List PolicyEvent) :=
  Except.ok (s, [])

/-- Class-wide static type identifier (`static std::string type`; its
value is set outside the excerpt — the spec gives "sparse_matrix"). -/
def type : String := "sparse_matrix"

/-- Translated from the source header (inline body): `getType` returns
the static class-wide `type` string, ignoring all instance state. -/
def getType (_st : CSparseMatrixProjector2D) : String := type

/-! ### Concrete example instance (spec §8 scenario, integer weights) -/

/-- Example matrix: 2 projections × 2 detectors (rows 0–3), 2×2 volume
(columns 0–3). -/
def exMatrix : SparseMatrix := ⟨4, 4, [[(0, 1), (2, 3)], [(1, 2)], [], [(3, 1)]]⟩

/-- Example projection geometry: 2 projections, 2 detectors each. -/
def exPG : SparseMatrixProjectionGeometry2D := ⟨2, 2⟩

/-- Example volume geometry: a 2×2 pixel grid. -/
def exVG : VolumeGeometry2D := ⟨2, 2⟩

/-- Example initialized projector over `exMatrix`. -/
def exProj : CSparseMatrixProjector2D := ⟨true, exPG, exVG, exMatrix⟩

/-- Example uninitialized projector. -/
def exUninit : CSparseMatrixProjector2D := ⟨false, ⟨0, 0⟩, ⟨0, 0⟩, ⟨0, 0, []⟩⟩

/-- Example policy over state ℕ: accepts every ray, counts callbacks. -/
def countPolicy : Policy Nat :=
  ⟨fun s _ => (s + 1, true), fun s _ _ _ => s + 1, fun s _ => s + 1⟩

/-- Example policy over state ℕ that skips every ray. -/
def skipPolicy : Policy Nat :=
  ⟨fun s _ => (s + 1, false), fun s _ _ _ => s + 1, fun s _ => s + 1⟩

/-! ### Basic well-formedness lemmas -/

/-- In a list of entries with nodup column components, the weight at a
given column is unique. -/
lemma weight_eq_of_nodup_fst {l : List (Nat × Weight)}
    (hnd : (l.map Prod.fst).Nodup) {c : Nat} {w1 w2 : Weight}
    (h1 : (c, w1) ∈ l) (h2 : (c, w2) ∈ l) : w1 = w2 := by
  induction l with
  | nil => cases h1
  | cons e rest ih =>
    simp only [List.map_cons, List.nodup_cons] at hnd
    rcases List.mem_cons.mp h1 with h1' | h1' <;>
      rcases List.mem_cons.mp h2 with h2' | h2'
    · have := h1'.trans h2'.symm
      exact (Prod.mk.injEq c w1 c w2 ▸ this).2
    · exfalso
      apply hnd.1
      rw [← h1']
      exact List.mem_map.mpr ⟨(c, w2), h2', rfl⟩
    · exfalso
      apply hnd.1
      rw [← h2']
      exact List.mem_map.mpr ⟨(c, w1), h1', rfl⟩
    · exact ih hnd.2 h1' h2'

/-- Every row (also an out-of-range one) of a well-formed matrix is a
well-formed row. -/
lemma rowWF_row {m : SparseMatrix} (h : m.WF) (r : Nat) :
    rowWF m.columnCount (m.row r) := by
  by_cases hr : r < m.rows.length
  · have hmem : m.row r ∈ m.rows := by
      unfold SparseMatrix.row
      rw [List.getD_eq_getElem _ _ hr]
      exact List.getElem_mem hr
    exact h.2 _ hmem
  · have : m.row r = [] := by
      unfold SparseMatrix.row
      exact List.getD_eq_default _ _ (Nat.le_of_not_lt hr)
    rw [this]
    exact ⟨List.chain'_nil, by intro e he; cases he⟩

/-- The column components of a well-formed row are strictly ascending. -/
lemma rowWF_fst_chain {cc : Nat} {row : List (Nat × Weight)} (h : rowWF cc row) :
    (row.map Prod.fst).Chain' (· < ·) :=
  (List.chain'_map _).mpr h.1

/-- The column components of a well-formed row contain no duplicates. -/
lemma rowWF_fst_nodup {cc : Nat} {row : List (Nat × Weight)} (h : rowWF cc row) :
    (row.map Prod.fst).Nodup :=
  (List.chain'_iff_pairwise.mp (rowWF_fst_chain h)).imp Nat.ne_of_lt

/-- On a well-formed row, `find?` at a stored column returns exactly the
stored entry. -/
lemma find?_eq_some_of_mem {cc : Nat} {row : List (Nat × Weight)}
    (h : rowWF cc row) {c : Nat} {w : Weight} (hm : (c, w) ∈ row) :
    row.find? (fun e => e.1 == c) = some (c, w) := by
  have hsome : (row.find? (fun e => e.1 == c)).isSome := by
    rw [List.find?_isSome]
    exact ⟨(c, w), hm, by simp⟩
  obtain ⟨e, he⟩ := Option.isSome_iff_exists.mp hsome
  have hec : e.1 = c := by simpa using List.find?_some he
  have hemem : e ∈ row := List.mem_of_find?_eq_some he
  have hmem2 : (c, e.2) ∈ row := by
    rw [← hec]
    simpa using hemem
  have hw : e.2 = w := weight_eq_of_nodup_fst (rowWF_fst_nodup h) hmem2 hm
  rw [he]
  congr 1
  calc e = (e.1, e.2) := rfl
    _ = (c, w) := by rw [hec, hw]

/-- On a well-formed row, the looked-up weight is nonzero exactly at the
stored columns. -/
lemma findCol_ne_zero_iff {cc : Nat} {row : List (Nat × Weight)}
    (h : rowWF cc row) (c : Nat) :
    findCol row c ≠ 0 ↔ c ∈ row.map Prod.fst := by
  unfold findCol
  cases hf : row.find? (fun e => e.1 == c) with
  | none =>
    simp only [ne_eq, not_true_eq_false, false_iff]
    intro hc
    obtain ⟨e, hem, hec⟩ := List.mem_map.mp hc
    rw [List.find?_eq_none] at hf
    exact hf e hem (by simp [hec])
  | some e =>
    have hec : e.1 = c := by simpa using List.find?_some hf
    have hemem : e ∈ row := List.mem_of_find?_eq_some hf
    constructor
    · intro _
      exact List.mem_map.mpr ⟨e, hemem, hec⟩
    · intro _
      exact (h.2 e hemem).2

/-- Filtering `range n` by membership in a nodup list of values below
`n` keeps exactly that many elements. -/
lemma length_filter_range {n : Nat} {l : List Nat} (hnd : l.Nodup)
    (hlt : ∀ x ∈ l, x < n) :
    ((List.range n).filter (fun c => decide (c ∈ l))).length = l.length := by
  have hfn : ((List.range n).filter (fun c => decide (c ∈ l))).Nodup :=
    (List.nodup_range n).filter _
  have hperm : ((List.range n).filter (fun c => decide (c ∈ l))).Perm l := by
    rw [List.perm_ext_iff_of_nodup hfn hnd]
    intro a
    simp only [List.mem_filter, List.mem_range, decide_eq_true_eq]
    exact ⟨fun hh => hh.2, fun hh => ⟨hlt a hh, hh⟩⟩
  exact hperm.length_eq

/-- Stored row size equals the true nonzero count, for every row of a
well-formed matrix. -/
lemma rowSize_eq_trueNnz {m : SparseMatrix} (h : m.WF) (r : Nat) :
    m.rowSize r = m.trueNnz r := by
  have hw := rowWF_row h r
  unfold SparseMatrix.trueNnz
  have hcong : ∀ c ∈ List.range m.columnCount,
      decide (m.matValue r c ≠ 0) = decide (c ∈ (m.row r).map Prod.fst) := by
    intro c _
    rw [decide_eq_decide]
    exact findCol_ne_zero_iff hw c
  rw [List.filter_congr hcong,
    length_filter_range (rowWF_fst_nodup hw) (by
      intro x hx
      obtain ⟨e, hem, rfl⟩ := List.mem_map.mp hx
      exact (hw.2 e hem).1)]
  simp [SparseMatrix.rowSize]

/-- Well-formedness of the example matrix. -/
lemma exMatrix_WF : exMatrix.WF := by
  constructor
  · rfl
  · intro row hrow
    fin_cases hrow <;>
      refine ⟨by simp, ?_⟩ <;>
      intro e he <;>
      simp only [List.mem_cons, List.not_mem_nil, or_false] at he <;>
      first
        | exact he.elim
        | (rcases he with rfl | rfl <;> norm_num [exMatrix])

/-! ### Claim theorems -/

/-- C10: `getType` returns the single class-wide static type identifier
string for every instance and in every state (also before
initialization and after `clear`); it is deterministic, ignores all
state, and two calls on any instances yield the same string. -/
theorem C10_getType_static : ∀ st st' : CSparseMatrixProjector2D,
    getType st = type ∧ getType st = getType st' ∧ getType (clear st) = type :=
  fun _ _ => ⟨rfl, rfl, rfl⟩

/-- C8 counterexample: the claim "projectSingleVoxel and
projectAllVoxels report a tagged NotSupported result" is false on the
code — the inline bodies in the header are empty, so at this concrete
input they return normally with no policy callback and do not report
`NotSupported`. -/
theorem C8_counterexample :
    projectSingleVoxel countPolicy exProj 0 0 (0 : Nat) =
      Except.ok (0, ([] : List PolicyEvent)) ∧
    projectSingleVoxel countPolicy exProj 0 0 (0 : Nat) ≠
      Except.error PError.NotSupported ∧
    projectAllVoxels countPolicy exProj (0 : Nat) ≠
      Except.error PError.NotSupported := by
  refine ⟨rfl, ?_, ?_⟩ <;> intro h <;> exact Except.noConfusion h

/-- C8 amended: `projectSingleVoxel` and `projectAllVoxels` are silent
no-ops — for every input they invoke no policy callback and return
normally with the state untouched; no NotSupported outcome is ever
reported. -/
theorem C8_silent_noop : ∀ (σ : Type) (pol : Policy σ)
    (st : CSparseMatrixProjector2D) (row col : Nat) (s : σ),
    projectSingleVoxel pol st row col s = Except.ok (s, []) ∧
    projectAllVoxels pol st s = Except.ok (s, []) :=
  fun _ _ _ _ _ _ => ⟨rfl, rfl⟩

/-- C5: `initializeProj` on a matrix whose column count differs from
width × height, or whose row count differs from the total detector
count, fails with DimensionMismatch and returns the prior observable
state unchanged. -/
theorem C5_initialize_dimensionMismatch (st : CSparseMatrixProjector2D)
    (pg : SparseMatrixProjectionGeometry2D) (vg : VolumeGeometry2D)
    (m : SparseMatrix)
    (h : m.columnCount ≠ totalPixels vg ∨ m.rowCount ≠ totalDetectors pg) :
    initializeProj st pg vg m = (st, some PError.DimensionMismatch) := by
  have hc : checkDims pg vg m = false := by
    unfold checkDims
    rcases h with h | h <;> simp [h]
  simp [initializeProj, hc]

/-- C5 witness: a 4 × 3 matrix against the 2×2 example geometries. -/
theorem C5_witness :
    ((⟨4, 3, []⟩ : SparseMatrix).columnCount ≠ totalPixels exVG ∨
      (⟨4, 3, []⟩ : SparseMatrix).rowCount ≠ totalDetectors exPG) ∧
    initializeProj exUninit exPG exVG ⟨4, 3, []⟩ =
      (exUninit, some PError.DimensionMismatch) :=
  ⟨by decide,
   C5_initialize_dimensionMismatch exUninit exPG exVG ⟨4, 3, []⟩ (by decide)⟩

/-- C2: on an initialized projector, for every valid projection index
the weights count equals the sum over the projection's detectors of the
true nonzero count of the corresponding matrix row. -/
theorem C2_projectionWeightsCount (st : CSparseMatrixProjector2D) (p : Nat)
    (hinit : st.m_bIsInitialized = true)
    (hp : p < st.m_pProjectionGeometry.projectionCount)
    (hWF : st.m_pMatrix.WF) :
    getProjectionWeightsCount st p =
      Except.ok (((List.range st.m_pProjectionGeometry.detectorCount).map
        (fun d => st.m_pMatrix.trueNnz (rayIndex st.m_pProjectionGeometry p d))).sum) := by
  unfold getProjectionWeightsCount
  rw [if_pos ⟨by simp [hinit], hp⟩]
  have hfun : (fun d => st.m_pMatrix.rowSize (rayIndex st.m_pProjectionGeometry p d)) =
      (fun d => st.m_pMatrix.trueNnz (rayIndex st.m_pProjectionGeometry p d)) := by
    funext d
    exact rowSize_eq_trueNnz hWF _
  rw [hfun]

/-- C2 witness: projection 0 of the example projector. -/
theorem C2_witness :
    exProj.m_bIsInitialized = true ∧
    0 < exProj.m_pProjectionGeometry.projectionCount ∧
    exProj.m_pMatrix.WF ∧
    getProjectionWeightsCount exProj 0 =
      Except.ok (((List.range exProj.m_pProjectionGeometry.detectorCount).map
        (fun d => exProj.m_pMatrix.trueNnz (rayIndex exProj.m_pProjectionGeometry 0 d))).sum) :=
  ⟨rfl, by decide, exMatrix_WF,
   C2_projectionWeightsCount exProj 0 rfl (by decide) exMatrix_WF⟩

/-- C9: a successful `initializeProj` establishes the invariant —
initialized state, matrix row count equal to the geometry's total
detector count, matrix column count equal to width × height, and every
row's stored entry count equal to the per-row true nonzero count; the
state is immutable until `clear`, which returns to Uninitialized. -/
theorem C9_initialize_invariant (st st' : CSparseMatrixProjector2D)
    (pg : SparseMatrixProjectionGeometry2D) (vg : VolumeGeometry2D)
    (m : SparseMatrix)
    (hsucc : initializeProj st pg vg m = (st', none)) (hWF : m.WF) :
    st'.m_bIsInitialized = true ∧
    st'.m_pMatrix.rowCount = totalDetectors st'.m_pProjectionGeometry ∧
    st'.m_pMatrix.columnCount = totalPixels st'.m_pVolumeGeometry ∧
    (∀ r, st'.m_pMatrix.rowSize r = st'.m_pMatrix.trueNnz r) ∧
    (clear st').m_bIsInitialized = false := by
  unfold initializeProj at hsucc
  by_cases hc : checkDims pg vg m
  · rw [if_pos hc] at hsucc
    have hst : st' = ⟨true, pg, vg, m⟩ := by
      have := congrArg Prod.fst hsucc
      simpa using this.symm
    subst hst
    unfold checkDims at hc
    simp only [Bool.and_eq_true, beq_iff_eq] at hc
    exact ⟨rfl, hc.2, hc.1, fun r => rowSize_eq_trueNnz hWF r, rfl⟩
  · rw [if_neg hc] at hsucc
    have := congrArg Prod.snd hsucc
    simp at this

/-- C9 witness: initializing the example projector from scratch. -/
theorem C9_witness :
    initializeProj exUninit exPG exVG exMatrix = (exProj, none) ∧
    exMatrix.WF ∧
    (exProj.m_bIsInitialized = true ∧
     exProj.m_pMatrix.rowCount = totalDetectors exProj.m_pProjectionGeometry ∧
     exProj.m_pMatrix.columnCount = totalPixels exProj.m_pVolumeGeometry ∧
     (∀ r, exProj.m_pMatrix.rowSize r = exProj.m_pMatrix.trueNnz r) ∧
     (clear exProj).m_bIsInitialized = false) :=
  ⟨rfl, exMatrix_WF,
   C9_initialize_invariant exUninit exProj exPG exVG exMatrix rfl exMatrix_WF⟩

/-! ### Traversal-engine lemmas -/

/-- Equation: traversal of the empty ray list. -/
lemma runRays_nil {σ : Type} (pol : Policy σ) (m : SparseMatrix) (s : σ) :
    runRays pol m s [] = (s, []) := rfl

/-- Equation: traversal of a cons ray list. -/
lemma runRays_cons {σ : Type} (pol : Policy σ) (m : SparseMatrix) (s : σ)
    (r : Nat) (l : List Nat) :
    runRays pol m s (r :: l) =
      ((runRays pol m (stepRay pol m s r).1 l).1,
       (stepRay pol m s r).2 ++ (runRays pol m (stepRay pol m s r).1 l).2) := rfl

/-- Equation: sequential composition over a cons index list. -/
lemma chainRuns_cons {σ : Type} (f : Nat → σ → σ × List PolicyEvent) (s : σ)
    (i : Nat) (l : List Nat) :
    chainRuns f s (i :: l) =
      ((chainRuns f (f i s).1 l).1, (f i s).2 ++ (chainRuns f (f i s).1 l).2) := rfl

/-- Traversal of a concatenated ray list threads the state through the
first part and concatenates the traces. -/
lemma runRays_append {σ : Type} (pol : Policy σ) (m : SparseMatrix)
    (l1 l2 : List Nat) : ∀ s : σ,
    runRays pol m s (l1 ++ l2) =
      ((runRays pol m (runRays pol m s l1).1 l2).1,
       (runRays pol m s l1).2 ++ (runRays pol m (runRays pol m s l1).1 l2).2) := by
  induction l1 with
  | nil => intro s; simp [runRays_nil]
  | cons a rest ih =>
    intro s
    rw [List.cons_append, runRays_cons, ih, runRays_cons]
    simp [List.append_assoc]

/-- Traversal of a mapped index list is the sequential composition of
the per-index single-ray traversals. -/
lemma runRays_singleton_map {σ : Type} (pol : Policy σ) (m : SparseMatrix)
    (g : Nat → Nat) : ∀ (l : List Nat) (s : σ),
    runRays pol m s (l.map g) =
      chainRuns (fun i t => runRays pol m t [g i]) s l := by
  intro l
  induction l with
  | nil => intro s; rfl
  | cons a rest ih =>
    intro s
    rw [List.map_cons, runRays_cons, chainRuns_cons, ih]
    simp [runRays_cons, runRays_nil]

/-- Traversal of a flattened index list is the sequential composition of
the per-index block traversals. -/
lemma runRays_flatMap {σ : Type} (pol : Policy σ) (m : SparseMatrix)
    (f : Nat → List Nat) : ∀ (l : List Nat) (s : σ),
    runRays pol m s (l.flatMap f) =
      chainRuns (fun i t => runRays pol m t (f i)) s l := by
  intro l
  induction l with
  | nil => intro s; rfl
  | cons a rest ih =>
    intro s
    rw [List.flatMap_cons, runRays_append, chainRuns_cons, ih]

/-- Row order: the flat row range decomposes projection-major,
detector-minor. -/
lemma range_mul_flatMap (P D : Nat) :
    List.range (P * D) =
      (List.range P).flatMap (fun p => (List.range D).map (fun d => p * D + d)) := by
  induction P with
  | zero => simp
  | succ P ih =>
    rw [List.range_succ, List.flatMap_append, ← ih, Nat.succ_mul, List.range_add]
    simp

/-- C6: on an initialized projector, `project` performs exactly the
sequential composition, over all projections in order, of
`projectSingleProjection`; and each `projectSingleProjection` performs
exactly the sequential composition over its detectors of
`projectSingleRay` — identical ordered callback sequences, with the
policy state threaded through. -/
theorem C6_traversal_decomposition {σ : Type} (pol : Policy σ)
    (st : CSparseMatrixProjector2D) (s s' : σ) (p : Nat)
    (_hinit : st.m_bIsInitialized = true) :
    project pol st s =
      chainRuns (fun q t => projectSingleProjection pol st q t) s
        (List.range st.m_pProjectionGeometry.projectionCount) ∧
    projectSingleProjection pol st p s' =
      chainRuns (fun d t => projectSingleRay pol st p d t) s'
        (List.range st.m_pProjectionGeometry.detectorCount) := by
  constructor
  · unfold project totalDetectors
    rw [range_mul_flatMap, runRays_flatMap]
    rfl
  · unfold projectSingleProjection
    rw [runRays_singleton_map]
    rfl

/-- C6 witness: the example projector with the counting policy. -/
theorem C6_witness :
    exProj.m_bIsInitialized = true ∧
    (project countPolicy exProj 0 =
      chainRuns (fun q t => projectSingleProjection countPolicy exProj q t) 0
        (List.range exProj.m_pProjectionGeometry.projectionCount) ∧
     projectSingleProjection countPolicy exProj 0 0 =
      chainRuns (fun d t => projectSingleRay countPolicy exProj 0 d t) 0
        (List.range exProj.m_pProjectionGeometry.detectorCount)) :=
  ⟨rfl, C6_traversal_decomposition countPolicy exProj 0 0 0 rfl⟩

/-- Trace of the inner weight loop: one `addWeight` event per stored
entry, in storage order. -/
lemma addWeightsLoop_trace {σ : Type} (pol : Policy σ) (ray : Nat) :
    ∀ (s : σ) (l : List (Nat × Weight)),
    (addWeightsLoop pol ray s l).2 =
      l.map (fun e => PolicyEvent.addWeightCall ray e.1 e.2) := by
  intro s l
  induction l generalizing s with
  | nil => rfl
  | cons e rest ih => simp [addWeightsLoop, ih]

/-- C7: per-ray state machine.  If `prior` returns false the ray's trace
is the lone `prior` call (no addWeight, no posterior); if it returns
true the trace is `prior`, then one `addWeight` per stored (nonzero)
entry of the row in strictly ascending, duplicate-free pixel order,
then exactly one `posterior` — also when the row is empty.  The
single-ray traversal produces exactly this per-ray trace. -/
theorem C7_per_ray_contract {σ : Type} (pol : Policy σ) (m : SparseMatrix)
    (s : σ) (ray : Nat) (hWF : m.WF) :
    ((pol.prior s ray).2 = false →
      (stepRay pol m s ray).2 = [PolicyEvent.priorCall ray]) ∧
    ((pol.prior s ray).2 = true →
      (stepRay pol m s ray).2 =
        PolicyEvent.priorCall ray ::
          ((m.row ray).map (fun e => PolicyEvent.addWeightCall ray e.1 e.2) ++
            [PolicyEvent.posteriorCall ray]) ∧
      ((m.row ray).map Prod.fst).Chain' (· < ·) ∧
      ((m.row ray).map Prod.fst).Nodup) ∧
    (runRays pol m s [ray]).2 = (stepRay pol m s ray).2 := by
  refine ⟨?_, ?_, ?_⟩
  · intro hb
    simp [stepRay, hb]
  · intro hb
    refine ⟨?_, rowWF_fst_chain (rowWF_row hWF ray), rowWF_fst_nodup (rowWF_row hWF ray)⟩
    simp [stepRay, hb, addWeightsLoop_trace]
  · simp [runRays]

/-- C7 witness: ray 0 of the example matrix with the counting policy
(prior accepts), extracting the full per-ray trace shape. -/
theorem C7_witness :
    exMatrix.WF ∧
    (stepRay countPolicy exMatrix 0 0).2 =
      PolicyEvent.priorCall 0 ::
        ((exMatrix.row 0).map (fun e => PolicyEvent.addWeightCall 0 e.1 e.2) ++
          [PolicyEvent.posteriorCall 0]) :=
  ⟨exMatrix_WF, ((C7_per_ray_contract countPolicy exMatrix 0 0 exMatrix_WF).2.1 rfl).1⟩

/-- C3: on an initialized projector with valid indices and a
sufficiently large buffer, `computeSingleRayWeights` returns the row's
entries in strictly ascending pixel-index order with no duplicate pixel
indices, storing exactly the row's true nonzero count; each returned
entry carries the matrix's (nonzero) value at its pixel. -/
theorem C3_singleRayWeights (st : CSparseMatrixProjector2D)
    (p d maxPixelCount : Nat)
    (hinit : st.m_bIsInitialized = true)
    (hp : p < st.m_pProjectionGeometry.projectionCount)
    (hd : d < st.m_pProjectionGeometry.detectorCount)
    (hWF : st.m_pMatrix.WF)
    (hmax : st.m_pMatrix.trueNnz (rayIndex st.m_pProjectionGeometry p d) ≤ maxPixelCount) :
    ∃ lst : List SPixelWeight,
      computeSingleRayWeights st p d maxPixelCount =
        Except.ok (lst, st.m_pMatrix.trueNnz (rayIndex st.m_pProjectionGeometry p d)) ∧
      (lst.map SPixelWeight.m_iIndex).Chain' (· < ·) ∧
      (lst.map SPixelWeight.m_iIndex).Nodup ∧
      lst.length = st.m_pMatrix.trueNnz (rayIndex st.m_pProjectionGeometry p d) ∧
      ∀ pw ∈ lst,
        st.m_pMatrix.matValue (rayIndex st.m_pProjectionGeometry p d) pw.m_iIndex =
          pw.m_fWeight ∧ pw.m_fWeight ≠ 0 := by
  have hrw := rowWF_row hWF (rayIndex st.m_pProjectionGeometry p d)
  have hlen : (st.m_pMatrix.row (rayIndex st.m_pProjectionGeometry p d)).length =
      st.m_pMatrix.trueNnz (rayIndex st.m_pProjectionGeometry p d) :=
    rowSize_eq_trueNnz hWF _
  have hidx : ((st.m_pMatrix.row (rayIndex st.m_pProjectionGeometry p d)).map
      (fun e : Nat × Weight => (⟨e.1, e.2⟩ : SPixelWeight))).map SPixelWeight.m_iIndex =
      (st.m_pMatrix.row (rayIndex st.m_pProjectionGeometry p d)).map Prod.fst := by
    rw [List.map_map]
    rfl
  refine ⟨(st.m_pMatrix.row (rayIndex st.m_pProjectionGeometry p d)).map
      (fun e => ⟨e.1, e.2⟩), ?_, ?_, ?_, ?_, ?_⟩
  · unfold computeSingleRayWeights
    rw [if_pos ⟨by simp [hinit], hp, hd⟩, if_neg (by omega), hlen]
  · rw [hidx]
    exact rowWF_fst_chain hrw
  · rw [hidx]
    exact rowWF_fst_nodup hrw
  · rw [List.length_map]
    exact hlen
  · intro pw hpw
    obtain ⟨e, he, rfl⟩ := List.mem_map.mp hpw
    have hmem : (e.1, e.2) ∈ st.m_pMatrix.row (rayIndex st.m_pProjectionGeometry p d) := by
      simpa using he
    have hfind := find?_eq_some_of_mem hrw hmem
    constructor
    · unfold SparseMatrix.matValue findCol
      rw [hfind]
    · exact (hrw.2 e he).2

/-- C3 witness: ray (0, 0) of the example projector with a buffer of
capacity 2. -/
theorem C3_witness :
    exProj.m_bIsInitialized = true ∧
    0 < exProj.m_pProjectionGeometry.projectionCount ∧
    0 < exProj.m_pProjectionGeometry.detectorCount ∧
    exProj.m_pMatrix.WF ∧
    exProj.m_pMatrix.trueNnz (rayIndex exProj.m_pProjectionGeometry 0 0) ≤ 2 ∧
    (∃ lst : List SPixelWeight,
      computeSingleRayWeights exProj 0 0 2 =
        Except.ok (lst, exProj.m_pMatrix.trueNnz (rayIndex exProj.m_pProjectionGeometry 0 0)) ∧
      (lst.map SPixelWeight.m_iIndex).Chain' (· < ·) ∧
      (lst.map SPixelWeight.m_iIndex).Nodup ∧
      lst.length = exProj.m_pMatrix.trueNnz (rayIndex exProj.m_pProjectionGeometry 0 0) ∧
      ∀ pw ∈ lst,
        exProj.m_pMatrix.matValue (rayIndex exProj.m_pProjectionGeometry 0 0) pw.m_iIndex =
          pw.m_fWeight ∧ pw.m_fWeight ≠ 0) :=
  ⟨rfl, by decide, by decide, exMatrix_WF,
   by show exMatrix.trueNnz (rayIndex exPG 0 0) ≤ 2
      rw [← rowSize_eq_trueNnz exMatrix_WF]; decide,
   C3_singleRayWeights exProj 0 0 2 rfl (by decide) (by decide) exMatrix_WF
     (by show exMatrix.trueNnz (rayIndex exPG 0 0) ≤ 2
         rw [← rowSize_eq_trueNnz exMatrix_WF]; decide)⟩

/-- C4: on an initialized projector with valid indices, a buffer
capacity strictly below the row's true nonzero count makes
`computeSingleRayWeights` fail with an explicit BufferTooSmall error
(no entries are produced). -/
theorem C4_bufferTooSmall (st : CSparseMatrixProjector2D)
    (p d maxPixelCount : Nat)
    (hinit : st.m_bIsInitialized = true)
    (hp : p < st.m_pProjectionGeometry.projectionCount)
    (hd : d < st.m_pProjectionGeometry.detectorCount)
    (hWF : st.m_pMatrix.WF)
    (hmax : maxPixelCount < st.m_pMatrix.trueNnz (rayIndex st.m_pProjectionGeometry p d)) :
    computeSingleRayWeights st p d maxPixelCount = Except.error PError.BufferTooSmall := by
  have hlen : (st.m_pMatrix.row (rayIndex st.m_pProjectionGeometry p d)).length =
      st.m_pMatrix.trueNnz (rayIndex st.m_pProjectionGeometry p d) :=
    rowSize_eq_trueNnz hWF _
  unfold computeSingleRayWeights
  rw [if_pos ⟨by simp [hinit], hp, hd⟩, if_pos (by omega)]

/-- C4 witness: ray (0, 0) of the example projector needs 2 slots; a
buffer of capacity 1 is rejected. -/
theorem C4_witness :
    exProj.m_bIsInitialized = true ∧
    0 < exProj.m_pProjectionGeometry.projectionCount ∧
    0 < exProj.m_pProjectionGeometry.detectorCount ∧
    exProj.m_pMatrix.WF ∧
    1 < exProj.m_pMatrix.trueNnz (rayIndex exProj.m_pProjectionGeometry 0 0) ∧
    computeSingleRayWeights exProj 0 0 1 = Except.error PError.BufferTooSmall :=
  ⟨rfl, by decide, by decide, exMatrix_WF,
   by show 1 < exMatrix.trueNnz (rayIndex exPG 0 0)
      rw [← rowSize_eq_trueNnz exMatrix_WF]; decide,
   C4_bufferTooSmall exProj 0 0 1 rfl (by decide) (by decide) exMatrix_WF
     (by show 1 < exMatrix.trueNnz (rayIndex exPG 0 0)
         rw [← rowSize_eq_trueNnz exMatrix_WF]; decide)⟩

/-! ### Column-enumeration lemmas -/

/-- Membership in the column-enumeration worker: exactly the rows from
`i` on that store an entry at column `c`. -/
lemma mem_colWeightsAux (c : Nat) :
    ∀ (L : List (List (Nat × Weight))) (i r : Nat) (w : Weight),
    ((r, w) ∈ colWeightsAux c i L ↔
      ∃ j, j < L.length ∧ r = i + j ∧
        (L.getD j []).find? (fun e => e.1 == c) = some (c, w)) := by
  intro L
  induction L with
  | nil =>
    intro i r w
    simp [colWeightsAux]
  | cons row rest ih =>
    intro i r w
    unfold colWeightsAux
    cases hf : row.find? (fun e => e.1 == c) with
    | some e =>
      have hec : e.1 = c := by simpa using List.find?_some hf
      constructor
      · intro hm
        rcases List.mem_cons.mp hm with hm' | hm'
        · have hri : r = i := congrArg Prod.fst hm'
          have hwe : w = e.2 := congrArg Prod.snd hm'
          refine ⟨0, by simp, by omega, ?_⟩
          rw [List.getD_cons_zero, hf]
          congr 1
          calc e = (e.1, e.2) := rfl
            _ = (c, w) := by rw [hec, hwe]
        · obtain ⟨j, hj, hrj, hfind⟩ := (ih (i + 1) r w).mp hm'
          refine ⟨j + 1, ?_, by omega, ?_⟩
          · simpa using Nat.succ_lt_succ hj
          · rw [List.getD_cons_succ]
            exact hfind
      · rintro ⟨j, hj, rfl, hfind⟩
        cases j with
        | zero =>
          rw [List.getD_cons_zero, hf] at hfind
          have h2 : e = (c, w) := Option.some.inj hfind
          have hpair : (i + 0, w) = (i, e.2) := by
            rw [h2]
            simp
          rw [hpair]
          exact List.mem_cons_self _ _
        | succ j' =>
          apply List.mem_cons_of_mem
          refine (ih (i + 1) (i + (j' + 1)) w).mpr ⟨j', ?_, by omega, ?_⟩
          · simpa using Nat.lt_of_succ_lt_succ hj
          · rw [List.getD_cons_succ] at hfind
            exact hfind
    | none =>
      constructor
      · intro hm
        obtain ⟨j, hj, hrj, hfind⟩ := (ih (i + 1) r w).mp hm
        refine ⟨j + 1, by simpa using Nat.succ_lt_succ hj, by omega, ?_⟩
        rw [List.getD_cons_succ]
        exact hfind
      · rintro ⟨j, hj, rfl, hfind⟩
        cases j with
        | zero =>
          rw [List.getD_cons_zero, hf] at hfind
          cases hfind
        | succ j' =>
          refine (ih (i + 1) (i + (j' + 1)) w).mpr ⟨j', ?_, by omega, ?_⟩
          · simpa using Nat.lt_of_succ_lt_succ hj
          · rw [List.getD_cons_succ] at hfind
            exact hfind

/-- Membership in `columnWeights`: exactly the rows storing an entry at
that column, with the stored weight. -/
lemma mem_columnWeights {m : SparseMatrix} (hWF : m.WF) {c r : Nat} {w : Weight} :
    ((r, w) ∈ m.columnWeights c ↔ r < m.rows.length ∧ (c, w) ∈ m.row r) := by
  unfold SparseMatrix.columnWeights
  rw [mem_colWeightsAux]
  constructor
  · rintro ⟨j, hj, hrj, hfind⟩
    have hr : r = j := by omega
    subst hr
    exact ⟨hj, List.mem_of_find?_eq_some hfind⟩
  · rintro ⟨hr, hm⟩
    exact ⟨r, hr, by omega, find?_eq_some_of_mem (rowWF_row hWF r) hm⟩

/-- Every row index emitted by the worker is at least the start index. -/
lemma colWeightsAux_lb (c : Nat) :
    ∀ (L : List (List (Nat × Weight))) (i : Nat) (x : Nat × Weight),
    x ∈ colWeightsAux c i L → i ≤ x.1 := by
  intro L
  induction L with
  | nil =>
    intro i x hx
    cases hx
  | cons row rest ih =>
    intro i x hx
    unfold colWeightsAux at hx
    cases hf : row.find? (fun e => e.1 == c) <;> rw [hf] at hx
    · exact Nat.le_of_succ_le (ih (i + 1) x hx)
    · rcases List.mem_cons.mp hx with hx' | hx'
      · rw [hx']
      · exact Nat.le_of_succ_le (ih (i + 1) x hx')

/-- The row indices emitted by the worker are strictly ascending. -/
lemma colWeightsAux_fst_chain (c : Nat) :
    ∀ (L : List (List (Nat × Weight))) (i : Nat),
    ((colWeightsAux c i L).map Prod.fst).Chain' (· < ·) := by
  intro L
  induction L with
  | nil =>
    intro i
    simp [colWeightsAux]
  | cons row rest ih =>
    intro i
    unfold colWeightsAux
    cases hf : row.find? (fun e => e.1 == c) with
    | none => exact ih (i + 1)
    | some e =>
      rw [List.map_cons, List.chain'_cons']
      refine ⟨?_, ih (i + 1)⟩
      intro y hy
      have hmem : y ∈ (colWeightsAux c (i + 1) rest).map Prod.fst :=
        List.mem_of_mem_head? hy
      obtain ⟨x, hx, rfl⟩ := List.mem_map.mp hmem
      have := colWeightsAux_lb c rest (i + 1) x hx
      omega

/-- The `columnWeights` sequence has strictly ascending row indices. -/
lemma columnWeights_fst_chain (m : SparseMatrix) (c : Nat) :
    ((m.columnWeights c).map Prod.fst).Chain' (· < ·) :=
  colWeightsAux_fst_chain c m.rows 0

/-- The `columnWeights` sequence has no duplicates. -/
lemma columnWeights_nodup (m : SparseMatrix) (c : Nat) :
    (m.columnWeights c).Nodup :=
  List.Nodup.of_map Prod.fst
    ((List.chain'_iff_pairwise.mp (columnWeights_fst_chain m c)).imp Nat.ne_of_lt)

/-- C1: round-trip between matrix entries and point queries.  For every
stored entry (row r, column c, weight w) of an initialized projector,
`projectPoint` at column c's pixel row/column succeeds and its result
contains exactly one DetectorRef equal to (r div D, r mod D, w); every
DetectorRef in the result corresponds to exactly one stored entry at
column c of the row it inverse-maps to; and the sequence is ordered by
strictly ascending row index. -/
theorem C1_projectPoint_roundtrip (st : CSparseMatrixProjector2D)
    (r c : Nat) (w : Weight)
    (hinit : st.m_bIsInitialized = true)
    (hWF : st.m_pMatrix.WF)
    (hrc : st.m_pMatrix.rowCount = totalDetectors st.m_pProjectionGeometry)
    (hcc : st.m_pMatrix.columnCount = totalPixels st.m_pVolumeGeometry)
    (hr : r < st.m_pMatrix.rowCount)
    (hentry : (c, w) ∈ st.m_pMatrix.row r) :
    ∃ l : List SDetector2D,
      projectPoint st (c / st.m_pVolumeGeometry.gridColCount)
          (c % st.m_pVolumeGeometry.gridColCount) = Except.ok l ∧
      l.count ⟨r / st.m_pProjectionGeometry.detectorCount,
               r % st.m_pProjectionGeometry.detectorCount, w⟩ = 1 ∧
      (∀ dref ∈ l,
        dref.m_iDetectorIndex < st.m_pProjectionGeometry.detectorCount ∧
        (c, dref.m_fWeight) ∈ st.m_pMatrix.row
          (dref.m_iAngleIndex * st.m_pProjectionGeometry.detectorCount +
            dref.m_iDetectorIndex) ∧
        (∀ w' : Weight,
          (c, w') ∈ st.m_pMatrix.row
            (dref.m_iAngleIndex * st.m_pProjectionGeometry.detectorCount +
              dref.m_iDetectorIndex) →
          w' = dref.m_fWeight)) ∧
      (l.map (fun dref =>
        dref.m_iAngleIndex * st.m_pProjectionGeometry.detectorCount +
          dref.m_iDetectorIndex)).Chain' (· < ·) := by
  have hrows : r < st.m_pMatrix.rows.length := by
    rw [hWF.1]
    exact hr
  have hcw : c < st.m_pMatrix.columnCount ∧ w ≠ 0 :=
    (rowWF_row hWF r).2 _ hentry
  have hclt : c < st.m_pVolumeGeometry.gridColCount * st.m_pVolumeGeometry.gridRowCount := by
    have := hcw.1
    rw [hcc] at this
    exact this
  have hWpos : 0 < st.m_pVolumeGeometry.gridColCount := by
    rcases Nat.eq_zero_or_pos st.m_pVolumeGeometry.gridColCount with h0 | h
    · rw [h0] at hclt
      simp at hclt
    · exact h
  have hrlt : r < st.m_pProjectionGeometry.projectionCount * st.m_pProjectionGeometry.detectorCount := by
    have := hr
    rw [hrc] at this
    exact this
  have hDpos : 0 < st.m_pProjectionGeometry.detectorCount := by
    rcases Nat.eq_zero_or_pos st.m_pProjectionGeometry.detectorCount with h0 | h
    · rw [h0] at hrlt
      simp at hrlt
    · exact h
  have hrowlt : c / st.m_pVolumeGeometry.gridColCount < st.m_pVolumeGeometry.gridRowCount := by
    rw [Nat.div_lt_iff_lt_mul hWpos]
    rw [Nat.mul_comm]
    exact hclt
  have hcollt : c % st.m_pVolumeGeometry.gridColCount < st.m_pVolumeGeometry.gridColCount :=
    Nat.mod_lt _ hWpos
  have hpix : pixelIndex st.m_pVolumeGeometry
      (c / st.m_pVolumeGeometry.gridColCount)
      (c % st.m_pVolumeGeometry.gridColCount) = c := by
    unfold pixelIndex
    rw [Nat.mul_comm]
    exact Nat.div_add_mod c st.m_pVolumeGeometry.gridColCount
  have hinj : Function.Injective
      (fun rw0 : Nat × Weight =>
        (⟨rw0.1 / st.m_pProjectionGeometry.detectorCount,
          rw0.1 % st.m_pProjectionGeometry.detectorCount, rw0.2⟩ : SDetector2D)) := by
    intro a b hab
    simp only [SDetector2D.mk.injEq] at hab
    obtain ⟨h1, h2, h3⟩ := hab
    have ha := Nat.div_add_mod a.1 st.m_pProjectionGeometry.detectorCount
    have hb := Nat.div_add_mod b.1 st.m_pProjectionGeometry.detectorCount
    have hfst : a.1 = b.1 := by
      rw [← ha, ← hb, h1, h2]
    exact Prod.ext hfst h3
  refine ⟨(st.m_pMatrix.columnWeights c).map
      (fun rw0 => ⟨rw0.1 / st.m_pProjectionGeometry.detectorCount,
        rw0.1 % st.m_pProjectionGeometry.detectorCount, rw0.2⟩), ?_, ?_, ?_, ?_⟩
  · unfold projectPoint
    rw [if_pos ⟨by simp [hinit], hrowlt, hcollt⟩, hpix]
  · have h1 := List.count_map_of_injective (st.m_pMatrix.columnWeights c) _ hinj (r, w)
    have h2 := List.count_eq_one_of_mem (columnWeights_nodup st.m_pMatrix c)
      ((mem_columnWeights hWF).mpr ⟨hrows, hentry⟩)
    exact h1.trans h2
  · intro dref hdref
    obtain ⟨rw0, hrw0, rfl⟩ := List.mem_map.mp hdref
    obtain ⟨hlt0, hmemrow⟩ := (mem_columnWeights hWF).mp hrw0
    have hback : rw0.1 / st.m_pProjectionGeometry.detectorCount *
        st.m_pProjectionGeometry.detectorCount +
        rw0.1 % st.m_pProjectionGeometry.detectorCount = rw0.1 := by
      rw [Nat.mul_comm]
      exact Nat.div_add_mod rw0.1 st.m_pProjectionGeometry.detectorCount
    refine ⟨Nat.mod_lt _ hDpos, ?_, ?_⟩
    · simpa [hback] using hmemrow
    · intro w' hw'
      rw [hback] at hw'
      exact weight_eq_of_nodup_fst (rowWF_fst_nodup (rowWF_row hWF rw0.1)) hw' hmemrow
  · rw [List.map_map]
    have hcomp : ((fun dref : SDetector2D =>
        dref.m_iAngleIndex * st.m_pProjectionGeometry.detectorCount +
          dref.m_iDetectorIndex) ∘
        (fun rw0 : Nat × Weight =>
          (⟨rw0.1 / st.m_pProjectionGeometry.detectorCount,
            rw0.1 % st.m_pProjectionGeometry.detectorCount, rw0.2⟩ : SDetector2D))) =
        Prod.fst := by
      funext rw0
      show rw0.1 / st.m_pProjectionGeometry.detectorCount *
        st.m_pProjectionGeometry.detectorCount +
        rw0.1 % st.m_pProjectionGeometry.detectorCount = rw0.1
      rw [Nat.mul_comm]
      exact Nat.div_add_mod rw0.1 st.m_pProjectionGeometry.detectorCount
    rw [hcomp]
    exact columnWeights_fst_chain st.m_pMatrix c

/-- C1 witness: the stored entry (row 3, column 3, weight 1) of the
example projector; the point query at pixel (1, 1) returns exactly one
matching DetectorRef. -/
theorem C1_witness :
    exProj.m_bIsInitialized = true ∧
    exProj.m_pMatrix.WF ∧
    exProj.m_pMatrix.rowCount = totalDetectors exProj.m_pProjectionGeometry ∧
    exProj.m_pMatrix.columnCount = totalPixels exProj.m_pVolumeGeometry ∧
    3 < exProj.m_pMatrix.rowCount ∧
    ((3 : Nat), (1 : Weight)) ∈ exProj.m_pMatrix.row 3 ∧
    (∃ l : List SDetector2D,
      projectPoint exProj (3 / exProj.m_pVolumeGeometry.gridColCount)
          (3 % exProj.m_pVolumeGeometry.gridColCount) = Except.ok l ∧
      l.count ⟨3 / exProj.m_pProjectionGeometry.detectorCount,
               3 % exProj.m_pProjectionGeometry.detectorCount, 1⟩ = 1 ∧
      (∀ dref ∈ l,
        dref.m_iDetectorIndex < exProj.m_pProjectionGeometry.detectorCount ∧
        (3, dref.m_fWeight) ∈ exProj.m_pMatrix.row
          (dref.m_iAngleIndex * exProj.m_pProjectionGeometry.detectorCount +
            dref.m_iDetectorIndex) ∧
        (∀ w' : Weight,
          (3, w') ∈ exProj.m_pMatrix.row
            (dref.m_iAngleIndex * exProj.m_pProjectionGeometry.detectorCount +
              dref.m_iDetectorIndex) →
          w' = dref.m_fWeight)) ∧
      (l.map (fun dref =>
        dref.m_iAngleIndex * exProj.m_pProjectionGeometry.detectorCount +
          dref.m_iDetectorIndex)).Chain' (· < ·)) :=
  ⟨rfl, exMatrix_WF, rfl, rfl, by decide, by decide,
   C1_projectPoint_roundtrip exProj 3 3 1 rfl exMatrix_WF rfl rfl
     (by decide) (by decide)⟩

end Astra
